import Mathlib

/-!
Verification of the habitus build orchestrator (`build/builder.go`) against its
natural-language specification.  The Go source is shallowly embedded: pure
helpers become Lean functions over `String`/`List Char`, the step-executor
`BuildStep` becomes a state-and-error monad over an oracle environment that
answers every Docker-daemon and file-system call, and the host file system is
an explicit association list.  All definitions are written with structural
recursion so the kernel can evaluate them on concrete inputs.
-/

namespace Habitus

/-! ## Go string primitives (modelled over `List Char` so the kernel reduces them) -/

/-- ASCII lower-casing of one character; models Go `strings.ToLower` on the
ASCII names this program handles. -/
def asciiLower (c : Char) : Char :=
  if 'A' ≤ c ∧ c ≤ 'Z' then Char.ofNat (c.toNat + 32) else c

/-- Go `strings.ToLower` (ASCII fragment). -/
def goToLower (s : String) : String := String.mk (s.data.map asciiLower)

/-- Split a character list at every occurrence of `sep`; always returns at
least one piece, like Go `strings.Split` with a single-character separator. -/
def splitChar (sep : Char) : List Char → List (List Char)
  | [] => [[]]
  | x :: xs =>
    let r := splitChar sep xs
    if x = sep then [] :: r
    else
      match r with
      | [] => [[x]]
      | h :: t => (x :: h) :: t

/-- Go `strings.Split s (String.singleton sep)`. -/
def goSplit (s : String) (sep : Char) : List String :=
  (splitChar sep s.data).map String.mk

/-- Go `strings.Contains s (String.singleton c)`. -/
def goContains (s : String) (c : Char) : Bool := s.data.contains c

/-- Whitespace characters recognised by Go `strings.TrimSpace` (ASCII part). -/
def isGoSpace (c : Char) : Bool :=
  c = ' ' ∨ c = '\t' ∨ c = '\n' ∨ c = '\x0b' ∨ c = '\x0c' ∨ c = '\r'

/-- Go `strings.TrimSpace` (ASCII fragment). -/
def goTrimSpace (s : String) : String :=
  String.mk (((s.data.dropWhile isGoSpace).reverse.dropWhile isGoSpace).reverse)

/-- Concatenation of a list of strings. -/
def strJoin : List String → String
  | [] => ""
  | s :: r => s ++ strJoin r

/-- The two `strings.Replace(·, "'", "", -1)` / `strings.Replace(·, "\n", "", -1)`
calls applied to the `stat` output buffer (builder.go line 422): removing all
single quotes and newlines. -/
def stripPerms (s : String) : String :=
  String.mk (s.data.filter (fun c => ¬ (c = '\'' ∨ c = '\n')))

/-! ## Go `strconv.Quote` / `fmt.Sprintf("%q", []string)` (printable-ASCII fragment) -/

/-- Hex digit for values below 16. -/
def hexDigit (n : Nat) : Char :=
  if n < 10 then Char.ofNat (48 + n) else Char.ofNat (87 + n)

/-- Escape one character the way Go `strconv.Quote` does (exact on printable
ASCII; non-printable bytes use the `\xHH` form). -/
def goQuoteChar (c : Char) : List Char :=
  if c = '"' then ['\\', '"']
  else if c = '\\' then ['\\', '\\']
  else if c = '\n' then ['\\', 'n']
  else if c = '\t' then ['\\', 't']
  else if c = '\r' then ['\\', 'r']
  else if 32 ≤ c.toNat ∧ c.toNat < 127 then [c]
  else ['\\', 'x', hexDigit (c.toNat / 16 % 16), hexDigit (c.toNat % 16)]

/-- Go `strconv.Quote`. -/
def goQuote (s : String) : String :=
  String.mk ('"' :: (s.data.map goQuoteChar).flatten ++ ['"'])

/-- Interleave a separator between list elements. -/
def joinSep (sep : String) : List String → String
  | [] => ""
  | [x] => x
  | x :: xs => x ++ sep ++ joinSep sep xs

/-- Go `fmt.Sprintf("%q", xs)` for a string slice `xs`: the quoted elements,
space-separated, inside square brackets. -/
def goQuoteList (xs : List String) : String :=
  "[" ++ joinSep " " (xs.map goQuote) ++ "]"

/-! ## Go `path.Clean` / `path.Join` / `filepath.Base` -/

/-- One step of the lexical cleaning stack: push a path component, resolving
`.` and `..` as Go `path.Clean` documents. -/
def cleanPush (rooted : Bool) (stack : List String) (comp : String) : List String :=
  if comp = "" ∨ comp = "." then stack
  else if comp = ".." then
    match stack with
    | [] => if rooted then [] else [".."]
    | top :: rest => if top = ".." then ".." :: stack else rest
  else comp :: stack

/-- Go `path.Clean`: the documented purely lexical simplification, computed by
a component stack.  (`path.Clean` is Go standard library code, not part of this
repository; it is modelled from its documented semantics.) -/
def pathClean (p : String) : String :=
  if p = "" then "."
  else
    let rooted := p.data.head? = some '/'
    let comps := goSplit p '/'
    let stack := (comps.foldl (cleanPush rooted) []).reverse
    if rooted then
      "/" ++ joinSep "/" stack
    else if stack = [] then "."
    else joinSep "/" stack

/-- Go `path.Join` restricted to two arguments, as used by `copyToHost` and
`uniqueDockerfile`: empty elements are dropped, the rest joined with `/` and
cleaned; all-empty input gives the empty string. -/
def pathJoin (a b : String) : String :=
  if a = "" ∧ b = "" then ""
  else if a = "" then pathClean b
  else if b = "" then pathClean a
  else pathClean (a ++ "/" ++ b)

/-- Go `filepath.Base` (identical to `path.Base` on slash paths): strip
trailing slashes, then keep everything after the last slash. -/
def filepathBase (p : String) : String :=
  if p = "" then "."
  else
    let stripped := (p.data.reverse.dropWhile (· = '/')).reverse
    if stripped = [] then "/"
    else String.mk ((stripped.reverse.takeWhile (· ≠ '/')).reverse)

/-! ## Go `strconv.Atoi` and the file-mode arithmetic -/

/-- Decimal value of a digit list (most significant first). -/
def digitsVal (ds : List Char) : Int :=
  ds.foldl (fun a c => a * 10 + ((c.toNat : Int) - 48)) 0

/-- Base-10 reading of a digit string, the `atoi10` of the claims. -/
def atoi10 (s : String) : Int := digitsVal s.data

/-- Is the character one of `0123456789`? -/
def isDigitCh (c : Char) : Bool := 48 ≤ c.toNat ∧ c.toNat ≤ 57

/-- The optional leading sign of `strconv.ParseInt`: returns (negative?,
remaining characters). -/
def dropSign (l : List Char) : Bool × List Char :=
  match l with
  | [] => (false, [])
  | c :: rest =>
    if c = '+' then (false, rest)
    else if c = '-' then (true, rest)
    else (false, c :: rest)

/-- Go `strconv.Atoi` (= `ParseInt` base 10, 64-bit): optional sign, decimal
digits; empty or non-digit input is a syntax error returning 0; a value outside
the signed 64-bit range is a range error returning the clamped bound.  Returns
`(value, ok)` where `ok = false` models a non-nil error. -/
def goAtoi (s : String) : Int × Bool :=
  let neg := (dropSign s.data).1
  let ds := (dropSign s.data).2
  if ds = [] ∨ ds.any (fun c => ¬ isDigitCh c) then (0, false)
  else
    let v : Int := digitsVal ds
    let w : Int := if neg then -v else v
    if w > 2 ^ 63 - 1 then (2 ^ 63 - 1, false)
    else if w < -(2 ^ 63) then (-(2 ^ 63), false)
    else (w, true)

/-- Conversion of a Go `int` to `os.FileMode` (`uint32`): truncation mod 2³². -/
def fileModeOf (i : Int) : Nat := (i % (2 ^ 32 : Int)).toNat

/-- The permission-map entry recorded for one artifact (builder.go lines
422-427): strip quotes and newlines from the `stat --format='%a'` buffer, run
`strconv.Atoi`, and store the returned value whether or not parsing succeeded
(a parse failure is only logged). -/
def permEntry (statOut : String) : Int := (goAtoi (stripPerms statOut)).1

/-- The file mode applied by `copyToHost` (builder.go line 637):
`os.FileMode(perms[source]) | 0700`. -/
def appliedMode (e : Int) : Nat := fileModeOf e ||| 0o700

/-- Lookup in the permission map; Go map indexing defaults to 0 for a missing
key. -/
def lookupPerm (m : List (String × Int)) (k : String) : Int :=
  match m.find? (fun p => p.1 = k) with
  | some p => p.2
  | none => 0

/-- Go map assignment `m[k] = v`: replace an existing entry or append. -/
def mapSet (m : List (String × Int)) (k : String) (v : Int) : List (String × Int) :=
  if m.any (fun p => p.1 = k) then m.map (fun p => if p.1 = k then (k, v) else p)
  else m ++ [(k, v)]

/-! ## Data model: steps, artifacts, manifest lookup -/

/-- One file to extract from a built step's container (`build.Artifact`):
`Source` is the container-side path, `Dest` the host directory relative to the
working directory. -/
structure Artifact where
  Source : String
  Dest : String
deriving DecidableEq, Repr

/-- One build unit (`build.Step`), restricted to the fields `builder.go`
reads: the logical name, the build-file path, the optional ad hoc command, the
artifact list and the cleanup command list (`Step.Cleanup.Commands`). -/
structure Step where
  Name : String
  Dockerfile : String
  Command : String
  Artifacts : List Artifact
  Cleanup : List String
deriving DecidableEq, Repr

/-- `uniqueStepName` (builder.go lines 199-213): with an empty unique id the
step name is returned untouched; otherwise `-<uid>` is inserted before the
first `:` (keeping only `parts[1]` of the split) or appended, and the result
is lower-cased. -/
def uniqueStepName (uid : String) (step : Step) : String :=
  if uid = "" then step.Name
  else
    let newName :=
      if goContains step.Name ':' then
        let parts := goSplit step.Name ':'
        parts.getD 0 "" ++ "-" ++ uid ++ ":" ++ parts.getD 1 ""
      else
        step.Name ++ "-" ++ uid
    goToLower newName

/-- `uniqueDockerfile` (builder.go lines 699-701):
`filepath.Join(workdir, step.Dockerfile) + ".generated"`. -/
def uniqueDockerfile (workdir : String) (step : Step) : String :=
  pathJoin workdir step.Dockerfile ++ ".generated"

/-- Modelled from the spec: `Manifest.FindStepByName` is declared in the
manifest code of this repository, which is not part of this file; per the spec
(§4.2), a base-image name refers to a sibling step exactly when it "exactly
matches another step's logical Name", and a name matching no step simply
yields no match (the image is external). -/
def findStepByName (steps : List Step) (name : String) : Option Step :=
  steps.find? (fun s => s.Name = name)

/-- The rewrite applied to a FROM argument token by `replaceFromField`
(builder.go lines 553-561): a token naming a known step becomes that step's
unique name, any other token is left unchanged. -/
def rewriteTok (steps : List Step) (uid : String) (tok : String) : String :=
  match findStepByName steps tok with
  | some s => uniqueStepName uid s
  | none => tok

/-- Join with `:` separators (used to state the claimed tag preservation). -/
def joinColon : List String → String
  | [] => ""
  | [x] => x
  | x :: xs => x ++ ":" ++ joinColon xs

/-- The rewritten base-image token as the CLAIM words it (claim C1 / spec
§4.2): the matched step's name with `-<uid>` appended, inserted before the
first `:` with the whole tag suffix preserved, the result lower-cased. -/
def claimedRewrite (name uid : String) : String :=
  if goContains name ':' then
    let parts := goSplit name ':'
    goToLower (parts.headD "" ++ "-" ++ uid ++ ":" ++ joinColon parts.tail)
  else
    goToLower (name ++ "-" ++ uid)

/-! ## The build-instruction tree (`parser.Node`) and its serialization -/

/-- The node type of the Docker build-file parse tree consumed by
`replaceFromField` and `dumpDockerfile`: an instruction keyword (`Value`,
lower-cased by the parser), raw flag strings, the original line text, the
linked list of argument tokens (`Next`) and nested instructions
(`Children`). -/
inductive Node : Type where
  | mk (Value : String) (Flags : List String) (Original : String)
       (Next : Option Node) (Children : List Node) : Node

/-- Instruction keyword of a node. -/
def Node.Value : Node → String
  | .mk v _ _ _ _ => v

/-- Raw flag strings of a node. -/
def Node.Flags : Node → List String
  | .mk _ f _ _ _ => f

/-- Original line text of a node. -/
def Node.Original : Node → String
  | .mk _ _ o _ _ => o

/-- Next argument token of a node. -/
def Node.Next : Node → Option Node
  | .mk _ _ _ n _ => n

/-- Children of a node. -/
def Node.Children : Node → List Node
  | .mk _ _ _ _ c => c

mutual

/-- `dumpDockerfile` (builder.go lines 669-697): the node's value, then the
flags rendered with `fmt.Sprintf(" %q", flags)`, then every child (a `cmd`
child passes through its `Original` text), then the `Next` chain, finally
`strings.TrimSpace`. -/
def dumpDockerfile : Node → String
  | .mk v fl _ nxt ch =>
    let s1 := v
    let s2 := if fl.length > 0 then s1 ++ " " ++ goQuoteList fl else s1
    let s3 := dumpChildren ch s2
    let s4 := dumpNexts nxt s3
    goTrimSpace s4

/-- The `for _, n := range node.Children` loop of `dumpDockerfile`. -/
def dumpChildren : List Node → String → String
  | [], s => s
  | n :: rest, s =>
    if n.Value = "cmd" then dumpChildren rest (s ++ n.Original ++ "\n")
    else dumpChildren rest (s ++ dumpDockerfile n ++ "\n")

/-- The `for n := node.Next; n != nil; n = n.Next` loop of `dumpDockerfile`. -/
def dumpNexts : Option Node → String → String
  | none, s => s
  | some (.mk v fl og nx ch), s =>
    if ch.length > 0 then dumpNexts nx (s ++ " " ++ dumpDockerfile (.mk v fl og nx ch))
    else dumpNexts nx (s ++ " " ++ v)

end

/-- Rewrite of a single top-level instruction by `replaceFromField`
(builder.go lines 546-563): only `from` nodes are touched; a `from` with no
argument is the hard error of line 550; otherwise the first argument token's
value is replaced through `rewriteTok`. -/
def replaceFromChild (steps : List Step) (uid : String) : Node → Except String Node
  | .mk v fl og nxt ch =>
    if v = "from" then
      match nxt with
      | none => .error "invalid Dockerfile. No valid FROM found"
      | some (.mk nv nfl nog nnxt nch) =>
        .ok (.mk v fl og (some (.mk (rewriteTok steps uid nv) nfl nog nnxt nch)) ch)
    else .ok (.mk v fl og nxt ch)

/-- The `for _, child := range node.Children` loop of `replaceFromField`:
apply the per-child rewrite, returning the first error immediately. -/
def replaceChildren (steps : List Step) (uid : String) : List Node → Except String (List Node)
  | [] => .ok []
  | c :: rest =>
    match replaceFromChild steps uid c with
    | .error e => .error e
    | .ok c' =>
      match replaceChildren steps uid rest with
      | .error e => .error e
      | .ok rest' => .ok (c' :: rest')

/-- The pure core of `replaceFromField` (builder.go lines 530-573): walk the
top-level instructions, rewriting FROM arguments, failing on an argument-less
FROM; file input/output is handled by the caller (`BuildStep` model). -/
def replaceFromFieldCore (steps : List Step) (uid : String) : Node → Except String Node
  | .mk v fl og nxt ch =>
    match replaceChildren steps uid ch with
    | .error e => .error e
    | .ok ch' => .ok (.mk v fl og nxt ch')

/-- Serialization of a tree as the CLAIM words it (claim C8): every
instruction reproduced verbatim, i.e. the children's `Original` text. -/
def verbatimDump : Node → String
  | .mk _ _ _ _ ch => goTrimSpace (strJoin (ch.map (fun c => c.Original ++ "\n")))

/-- Argument tokens of a `Next` chain. -/
def chainVals : Option Node → List String
  | none => []
  | some (.mk v _ _ nx _) => v :: chainVals nx

/-- A `Next` chain all of whose nodes carry no children (the shape the parser
produces for ordinary instruction lines). -/
inductive FlatChain : Option Node → Prop where
  | nil : FlatChain none
  | cons (v : String) (fl : List String) (og : String) (nx : Option Node)
      (h : FlatChain nx) : FlatChain (some (.mk v fl og nx []))

/-- An ordinary instruction line: no nested children, flat argument chain. -/
def FlatLine (n : Node) : Prop := n.Children = [] ∧ FlatChain n.Next

/-- Re-synthesis of one instruction line as the amended claim C8 words it:
the parsed keyword, the flags rendered as a Go-quoted string list, the
argument tokens joined by single spaces, trimmed — not the original text. -/
def resynthLine (n : Node) : String :=
  goTrimSpace ((if n.Flags.length > 0 then n.Value ++ " " ++ goQuoteList n.Flags else n.Value)
    ++ strJoin ((chainVals n.Next).map (fun a => " " ++ a)))

/-! ## The step executor: oracle environment, event trace, host file system -/

/-- One entry of a container download archive (`archive/tar`): the type flag
byte and the file content.  `tar.TypeReg` is the byte `'0'`. -/
structure TarEntry where
  typeflag : Char
  content : String
deriving DecidableEq, Repr

/-- The oracle answer to one daemon / file-system call: whether the call
returned a non-nil error, plus the payloads a call may carry (a container or
image id, an exec exit code or output buffer, a downloaded archive). -/
structure Resp where
  isErr : Bool
  str : String
  num : Int
  archive : List TarEntry
deriving DecidableEq, Repr

/-- The environment: answers of the external world, indexed by the position of
the call in the step's execution. -/
def Env : Type := Nat → Resp

/-- Externally visible effects of a step execution, recorded when the
corresponding call succeeds. -/
inductive Ev : Type where
  | wroteGenerated (p : String)
  | builtImage (name : String)
  | createdContainer (id : String)
  | startedContainer (id : String)
  | ranExec (id : String)
  | committed (id : String)
  | stoppedContainer (id : String)
  | exported
  | squashed
  | loaded
  | removedTemp (n : Nat)
  | madeDirAll (p : String)
  | downloaded (p : String)
  | createdFile (p : String)
  | chmodded (p : String) (m : Nat)
  | removedContainer (id : String) (removeVolumes force : Bool)
  | removedGenerated (p : String)
deriving DecidableEq, Repr

/-- One host file: path, content, mode bits. -/
structure FsEntry where
  path : String
  content : String
  mode : Nat
deriving DecidableEq, Repr

/-- The host file system, an association list over paths. -/
abbrev Fs : Type := List FsEntry

/-- Execution state: position of the next oracle call, the event trace
(most recent first) and the host file system. -/
structure BS where
  idx : Nat
  trace : List Ev
  files : Fs
deriving Repr

/-- Outcome of a step computation: a value or a Go error. -/
inductive Out (α : Type) : Type where
  | ok (a : α)
  | fail (e : String)
deriving DecidableEq, Repr

/-- The step-execution monad: environment plus state plus short-circuiting
error, mirroring Go's `if err != nil { return err }` discipline. -/
def M (α : Type) : Type := Env → BS → Out α × BS

/-- Monad bind for `M`, propagating failure without running the rest. -/
def M.bind (x : M α) (f : α → M β) : M β := fun env s =>
  match x env s with
  | (.ok a, s') => f a env s'
  | (.fail e, s') => (.fail e, s')

/-- Monad unit for `M`. -/
def M.pure (a : α) : M α := fun _ s => (.ok a, s)

instance : Monad M where
  pure := M.pure
  bind := M.bind

/-- Consume the next oracle response. -/
def next : M Resp := fun env s => (.ok (env s.idx), { s with idx := s.idx + 1 })

/-- Record a successful external effect. -/
def emit (e : Ev) : M Unit := fun _ s => (.ok (), { s with trace := e :: s.trace })

/-- Return a Go error (`return err` on a non-nil `err`). -/
def failM (e : String) : M α := fun _ s => (.fail e, s)

/-- Read the host file system. -/
def getFiles : M Fs := fun _ s => (.ok s.files, s)

/-- Update the host file system. -/
def modifyFiles (f : Fs → Fs) : M Unit := fun _ s => (.ok (), { s with files := f s.files })

/-- Does a path exist on the host? -/
def hasPath (fs : Fs) (p : String) : Bool := fs.any (fun e => e.path = p)

/-- `os.Create`: truncate an existing file (keeping its mode) or create a new
one with mode 0666. -/
def createFile (p : String) (fs : Fs) : Fs :=
  if hasPath fs p then fs.map (fun e => if e.path = p then { e with content := "" } else e)
  else fs ++ [⟨p, "", 0o666⟩]

/-- `io.Copy` into a freshly created file: set its content. -/
def writeFileFs (p c : String) (fs : Fs) : Fs :=
  fs.map (fun e => if e.path = p then { e with content := c } else e)

/-- `os.Chmod`: set the mode bits of an existing file. -/
def chmodFs (p : String) (m : Nat) (fs : Fs) : Fs :=
  fs.map (fun e => if e.path = p then { e with mode := m } else e)

/-! ## `copyToHost` and the phases of `BuildStep` -/

/-- The `tr.Next()` extraction loop of `copyToHost` (builder.go lines 607-634):
each regular-file entry is written to `destFile` (`os.Create` then `io.Copy`,
each a fallible call); any other entry type is the hard error
`"Invalid header type"`. -/
def extractEntries (destFile : String) : List TarEntry → M Unit
  | [] => Pure.pure ()
  | e :: rest => do
    if e.typeflag = '0' then do
      let r ← next
      if r.isErr then failM "create failed" else do
        modifyFiles (createFile destFile)
        emit (.createdFile destFile)
      let r2 ← next
      if r2.isErr then failM "copy failed" else modifyFiles (writeFileFs destFile e.content)
      extractEntries destFile rest
    else failM "Invalid header type"

/-- `copyToHost` (builder.go lines 586-643): `os.MkdirAll` on the destination
directory, `DownloadFromContainer` (the archive is the oracle's payload),
extraction of every entry into `<workdir>/<Dest>/<Base(Source)>`, then
`os.Chmod` with `os.FileMode(perms[Source]) | 0700` (failing on a file that
was never created, as `os.Chmod` does). -/
def copyToHost (workdir : String) (a : Artifact) (perms : List (String × Int)) : M Unit := do
  let destPath := pathJoin workdir a.Dest
  let r ← next
  if r.isErr then failM "mkdir failed" else emit (.madeDirAll destPath)
  let r2 ← next
  if r2.isErr then failM "download failed" else emit (.downloaded a.Source)
  let destFile := pathJoin destPath (filepathBase a.Source)
  extractEntries destFile r2.archive
  let r3 ← next
  let fs ← getFiles
  if r3.isErr ∨ ¬ hasPath fs destFile then failM "chmod failed"
  else do
    modifyFiles (chmodFs destFile (appliedMode (lookupPerm perms a.Source)))
    emit (.chmodded destFile (appliedMode (lookupPerm perms a.Source)))

/-- The cleanup-command loop (builder.go lines 273-304): `CreateExec` failure
is fatal, `StartExec` failure is only logged (line 299). -/
def cleanupCmdsLoop (cid : String) : List String → M Unit
  | [] => Pure.pure ()
  | _cmd :: rest => do
    let r ← next
    if r.isErr then failM "create exec failed" else emit (.ranExec cid)
    let _r2 ← next
    cleanupCmdsLoop cid rest

/-- The cleanup / squash phase (builder.go lines 264-384): start, run cleanup
commands, commit, stop, export to a temp archive, squash into a second temp
archive, remove the first, load, remove the second; every step except the
cleanup execs is fatal on error. -/
def cleanupPhase (cid : String) (cmds : List String) : M Unit := do
  let r ← next
  if r.isErr then failM "start failed" else emit (.startedContainer cid)
  cleanupCmdsLoop cid cmds
  let rc ← next
  if rc.isErr then failM "commit failed" else emit (.committed cid)
  let rs ← next
  if rs.isErr then failM "stop failed" else emit (.stoppedContainer cid)
  let rt ← next
  if rt.isErr then failM "tempfile failed" else Pure.pure ()
  let rt2 ← next
  if rt2.isErr then failM "create failed" else Pure.pure ()
  let re ← next
  if re.isErr then failM "export failed" else emit .exported
  let rt3 ← next
  if rt3.isErr then failM "tempfile failed" else Pure.pure ()
  let rq ← next
  if rq.isErr then failM "squash failed" else emit .squashed
  let rr ← next
  if rr.isErr then failM "remove failed" else emit (.removedTemp 1)
  let ro ← next
  if ro.isErr then failM "open failed" else Pure.pure ()
  let rl ← next
  if rl.isErr then failM "load failed" else emit .loaded
  let rr2 ← next
  if rr2.isErr then failM "remove failed" else emit (.removedTemp 2)

/-- The permission-collection loop (builder.go lines 396-429): `CreateExec`
failure is fatal; `StartExec` and `Atoi` failures are only logged, and the map
entry is written regardless (line 427). -/
def statLoop (cid : String) (acc : List (String × Int)) :
    List Artifact → M (List (String × Int))
  | [] => Pure.pure acc
  | a :: rest => do
    let r ← next
    if r.isErr then failM "create exec failed" else emit (.ranExec cid)
    let r2 ← next
    statLoop cid (mapSet acc a.Source (permEntry r2.str)) rest

/-- The artifact-copy loop (builder.go lines 439-444). -/
def copyLoop (workdir : String) (perms : List (String × Int)) : List Artifact → M Unit
  | [] => Pure.pure ()
  | a :: rest => do
    copyToHost workdir a perms
    copyLoop workdir perms rest

/-- The artifact phase (builder.go lines 386-445): start the container,
collect permissions, stop it, copy every artifact to the host. -/
def artifactsPhase (workdir cid : String) (arts : List Artifact) : M Unit := do
  let r ← next
  if r.isErr then failM "start failed" else emit (.startedContainer cid)
  let perms ← statLoop cid [] arts
  let rs ← next
  if rs.isErr then failM "stop failed" else emit (.stoppedContainer cid)
  copyLoop workdir perms arts

/-- The ad hoc command phase (builder.go lines 448-503).  Returns `true` when
line 493 is reached: on a non-zero exit code the function executes
`return err`, and `err` is necessarily nil there (it was checked at line 487),
so `BuildStep` returns early WITHOUT an error and without the remaining
teardown.  A `false` result means execution continues normally. -/
def commandPhase (cid : String) : M Bool := do
  let r ← next
  if r.isErr then failM "start failed" else emit (.startedContainer cid)
  let r2 ← next
  if r2.isErr then failM "create exec failed" else emit (.ranExec cid)
  let _r3 ← next
  let r4 ← next
  if r4.isErr then failM "inspect failed" else Pure.pure ()
  if r4.num ≠ 0 then
    Pure.pure true
  else do
    let r5 ← next
    if r5.isErr then failM "stop failed" else emit (.stoppedContainer cid)
    Pure.pure false

/-- The guard of builder.go line 264: the cleanup/squash phase runs only when
squashing is enabled and cleanup commands are declared. -/
def maybeCleanup (noSquash : Bool) (cid : String) (cmds : List String) : M Unit :=
  if ¬ noSquash ∧ cmds.length > 0 then cleanupPhase cid cmds else Pure.pure ()

/-- The guard of builder.go line 386: the artifact phase runs only when
artifacts are declared. -/
def maybeArtifacts (workdir cid : String) (arts : List Artifact) : M Unit :=
  if arts.length > 0 then artifactsPhase workdir cid arts else Pure.pure ()

/-- The guard of builder.go line 448: the command phase runs only when an ad
hoc command is declared (and then may return early, see `commandPhase`). -/
def maybeCommand (cid cmd : String) : M Bool :=
  if cmd ≠ "" then commandPhase cid else Pure.pure false

/-- The container section of `BuildStep` (builder.go lines 255-517), entered
when the step declares artifacts, cleanup commands or an ad hoc command:
create the container, run the optional cleanup/squash, artifact and command
sub-paths, then force-remove the container (`RemoveVolumes: true, Force:
true`).  Returns `true` when the command phase returned early, skipping the
container removal. -/
def containerSection (noSquash : Bool) (workdir : String) (step : Step) : M Bool := do
  let rc ← next
  if rc.isErr then failM "create container failed" else emit (.createdContainer rc.str)
  let cid := rc.str
  maybeCleanup noSquash cid step.Cleanup
  maybeArtifacts workdir cid step.Artifacts
  let early ← maybeCommand cid step.Command
  if early then Pure.pure true
  else do
    let rr ← next
    if rr.isErr then failM "remove container failed" else emit (.removedContainer cid true true)
    Pure.pure false

/-- The `replaceFromField` call of `BuildStep` (builder.go lines 219-222 and
530-573): open the build file, rewrite the parsed tree (the `tree` argument is
the parse result), write the generated file. -/
def rewritePhase (steps : List Step) (uid workdir : String) (step : Step) (tree : Node) :
    M Unit := do
  let ro ← next
  if ro.isErr then failM "open failed" else Pure.pure ()
  match replaceFromFieldCore steps uid tree with
  | .error e => failM e
  | .ok _ => do
    let rw ← next
    if rw.isErr then failM "write failed" else emit (.wroteGenerated (uniqueDockerfile workdir step))

/-- The guard of builder.go line 255: the container section runs only when
the step declares artifacts, cleanup commands or an ad hoc command. -/
def maybeContainer (noSquash : Bool) (workdir : String) (step : Step) : M Bool :=
  if step.Artifacts.length > 0 ∨ step.Cleanup.length > 0 ∨ step.Command ≠ "" then
    containerSection noSquash workdir step
  else Pure.pure false

/-- `BuildStep` (builder.go lines 216-526): rewrite the build file, build the
image, run the container section when needed, and finally delete the
generated file; the early return of the command phase (line 493) skips that
deletion. -/
def BuildStep (noSquash : Bool) (steps : List Step) (uid workdir : String)
    (step : Step) (tree : Node) : M Unit := do
  rewritePhase steps uid workdir step tree
  let rb ← next
  if rb.isErr then failM "build failed" else emit (.builtImage (uniqueStepName uid step))
  let early ← maybeContainer noSquash workdir step
  if early then Pure.pure ()
  else do
    let rg ← next
    if rg.isErr then failM "remove generated failed"
    else emit (.removedGenerated (uniqueDockerfile workdir step))

/-- Run `BuildStep` from the initial state. -/
def runBuildStep (env : Env) (noSquash : Bool) (steps : List Step)
    (uid workdir : String) (step : Step) (tree : Node) : Out Unit × BS :=
  BuildStep noSquash steps uid workdir step tree env ⟨0, [], []⟩

/-- Is an event a container removal? -/
def Ev.isRemoveContainer : Ev → Bool
  | .removedContainer _ _ _ => true
  | _ => false

/-- Is an event a generated-file removal? -/
def Ev.isRemoveGenerated : Ev → Bool
  | .removedGenerated _ => true
  | _ => false

/-! ## Claim theorems -/

/-- C9: when the builder's UniqueID is the empty string, `uniqueStepName`
returns the step's name completely unchanged — no session suffix, no lowercase
folding — so image names, container names and rewritten FROM tokens keep their
original casing. -/
theorem c9_empty_uid_identity (step : Step) : uniqueStepName "" step = step.Name := rfl

/-- C1 counterexample: for the step name `a:b:c` (more than one `:`) and
unique id `x`, the code rewrites the matching FROM token to `a-x:b`
(`strings.Split` keeps only the first two pieces), while the claim's formula
— `-x` inserted before the `:` with the tag preserved — yields `a-x:b:c`;
the claim as stated is therefore false at this input. -/
theorem c1_counterexample :
    rewriteTok [⟨"a:b:c", "Dockerfile", "", [], []⟩] "x" "a:b:c" = "a-x:b" ∧
    claimedRewrite "a:b:c" "x" = "a-x:b:c" ∧
    rewriteTok [⟨"a:b:c", "Dockerfile", "", [], []⟩] "x" "a:b:c" ≠ claimedRewrite "a:b:c" "x" := by
  refine ⟨by decide, by decide, by decide⟩

/-- C1 amended: for a step name containing at most one `:` (no colon, or a
split into exactly two pieces), a FROM token exactly matching that step's name
and a non-empty unique id rewrite to the claimed form — `-<uid>` appended, or
inserted before the `:` with the tag preserved, all lower-cased — and a token
matching no step is emitted unchanged. -/
theorem c1_amended_rewrite (steps : List Step) (uid tok : String) :
    (∀ s : Step, findStepByName steps tok = some s → uid ≠ "" →
      (goContains s.Name ':' = false ∨ (goSplit s.Name ':').length = 2) →
      rewriteTok steps uid tok = claimedRewrite s.Name uid) ∧
    (findStepByName steps tok = none → rewriteTok steps uid tok = tok) := by
  constructor
  · intro s hf hu hcol
    simp only [rewriteTok, hf]
    unfold uniqueStepName claimedRewrite
    rw [if_neg hu]
    cases hc : goContains s.Name ':' with
    | false => simp [hc]
    | true =>
      rcases hcol with h | h
      · rw [hc] at h; cases h
      · obtain ⟨a, b, hab⟩ := List.length_eq_two.mp h
        simp [hc, hab, joinColon]
  · intro hnone
    simp [rewriteTok, hnone]

/-- C1 amended witness: the step `App:1.0` with unique id `abc` rewrites to
`app-abc:1.0`, and the unmatched token `ubuntu` is left unchanged. -/
theorem c1_amended_rewrite_witness :
    rewriteTok [⟨"App:1.0", "Dockerfile", "", [], []⟩] "abc" "App:1.0" =
      claimedRewrite "App:1.0" "abc" ∧
    rewriteTok [⟨"App:1.0", "Dockerfile", "", [], []⟩] "abc" "ubuntu" = "ubuntu" :=
  ⟨(c1_amended_rewrite [⟨"App:1.0", "Dockerfile", "", [], []⟩] "abc" "App:1.0").1
      ⟨"App:1.0", "Dockerfile", "", [], []⟩ (by decide) (by decide) (Or.inr (by decide)),
   (c1_amended_rewrite [⟨"App:1.0", "Dockerfile", "", [], []⟩] "abc" "ubuntu").2 (by decide)⟩

/-- C3 counterexample: a build file whose only instruction is `RUN x` — no
FROM instruction at all — does NOT make the rewrite fail: `replaceFromField`'s
loop simply never fires, the rewrite succeeds and the generated file is
produced unchanged; the claim's first half is false at this input. -/
theorem c3_counterexample :
    (replaceFromFieldCore [] ""
        (.mk "" [] "" none [.mk "run" [] "RUN x" (some (.mk "x" [] "" none [])) []])).isOk = true ∧
    ∀ c ∈ (Node.mk "" [] "" none
        [.mk "run" [] "RUN x" (some (.mk "x" [] "" none [])) []]).Children,
      c.Value ≠ "from" := by
  refine ⟨rfl, by intro c hc; simp [Node.Children] at hc; subst hc; decide⟩

/-- C3 amended: a FROM instruction with no argument token is a hard error
(`"invalid Dockerfile. No valid FROM found"`, before any generated file is
produced), but a build file with no FROM instruction at all is NOT an error:
the rewrite succeeds. -/
theorem c3_amended_from_errors (steps : List Step) (uid : String)
    (v : String) (fl : List String) (og : String) (nxt : Option Node) (ch : List Node) :
    ((∃ c ∈ ch, c.Value = "from" ∧ c.Next = none) →
      replaceFromFieldCore steps uid (.mk v fl og nxt ch) =
        .error "invalid Dockerfile. No valid FROM found") ∧
    ((∀ c ∈ ch, c.Value ≠ "from") →
      (replaceFromFieldCore steps uid (.mk v fl og nxt ch)).isOk = true) := by
  have herrmsg : ∀ (c : Node) (e : String), replaceFromChild steps uid c = .error e →
      e = "invalid Dockerfile. No valid FROM found" := by
    intro c e hc
    obtain ⟨cv, cfl, cog, cnxt, cch⟩ := c
    by_cases hv : cv = "from"
    · subst hv
      cases cnxt with
      | none => simp [replaceFromChild] at hc; exact hc.symm
      | some nn =>
        obtain ⟨nv, nfl, nog, nnxt, nch⟩ := nn
        simp [replaceFromChild] at hc
    · simp [replaceFromChild, hv] at hc
  have herr : ∀ (l : List Node), (∃ c ∈ l, c.Value = "from" ∧ c.Next = none) →
      replaceChildren steps uid l = .error "invalid Dockerfile. No valid FROM found" := by
    intro l
    induction l with
    | nil => rintro ⟨c, hmem, -⟩; cases hmem
    | cons hd tl ih =>
      rintro ⟨c, hmem, hval, hnext⟩
      rcases List.mem_cons.mp hmem with rfl | hmem'
      · obtain ⟨cv, cfl, cog, cnxt, cch⟩ := c
        simp [Node.Value] at hval
        simp [Node.Next] at hnext
        subst hval; subst hnext
        simp [replaceChildren, replaceFromChild]
      · have htl := ih ⟨c, hmem', hval, hnext⟩
        cases hhd : replaceFromChild steps uid hd with
        | error e =>
          have := herrmsg hd e hhd
          subst this
          simp [replaceChildren, hhd]
        | ok c' => simp [replaceChildren, hhd, htl]
  have hok : ∀ (l : List Node), (∀ c ∈ l, c.Value ≠ "from") →
      ∃ l', replaceChildren steps uid l = .ok l' := by
    intro l
    induction l with
    | nil => exact fun _ => ⟨[], rfl⟩
    | cons hd tl ih =>
      intro hno
      have hhd : hd.Value ≠ "from" := hno hd (List.mem_cons_self hd tl)
      obtain ⟨l', hl⟩ := ih (fun c hc => hno c (List.mem_cons_of_mem hd hc))
      obtain ⟨hv, hfl, hog, hnxt, hch⟩ := hd
      simp only [Node.Value] at hhd
      refine ⟨.mk hv hfl hog hnxt hch :: l', ?_⟩
      simp [replaceChildren, replaceFromChild, hhd, hl]
  constructor
  · intro h
    simp [replaceFromFieldCore, herr ch h]
  · intro h
    obtain ⟨l, hl⟩ := hok ch h
    simp [replaceFromFieldCore, hl, Except.isOk, Except.toBool]

/-- C3 amended witness: `FROM` with no argument errors, and a FROM-less file
succeeds. -/
theorem c3_amended_from_errors_witness :
    replaceFromFieldCore [] "" (.mk "" [] "" none [.mk "from" [] "FROM" none []]) =
      .error "invalid Dockerfile. No valid FROM found" ∧
    (replaceFromFieldCore [] ""
        (.mk "" [] "" none [.mk "run" [] "RUN y" (some (.mk "y" [] "" none [])) []])).isOk = true :=
  ⟨(c3_amended_from_errors [] "" "" [] "" none [.mk "from" [] "FROM" none []]).1
      ⟨.mk "from" [] "FROM" none [], by simp, rfl, rfl⟩,
   (c3_amended_from_errors [] "" "" [] "" none
        [.mk "run" [] "RUN y" (some (.mk "y" [] "" none [])) []]).2
      (by intro c hc; simp at hc; subst hc; decide)⟩

/-- C10 counterexample: for the stat output `'99999999999999999999'` (20
digits), `strconv.Atoi` fails with a RANGE error but returns the clamped value
2⁶³−1, not 0; the recorded map entry is 2⁶³−1 and the applied mode is
`uint32(2⁶³−1) | 0700 = 0xFFFFFFFF`, not exactly 0o700 — the claim's
"parsing fails ⟹ entry 0 ⟹ mode exactly 0o700" is false at this input. -/
theorem c10_counterexample :
    (goAtoi (stripPerms "'99999999999999999999'\n")).2 = false ∧
    permEntry "'99999999999999999999'\n" = 2 ^ 63 - 1 ∧
    appliedMode (permEntry "'99999999999999999999'\n") = 4294967295 ∧
    appliedMode (permEntry "'99999999999999999999'\n") ≠ 0o700 := by
  refine ⟨by decide, by decide, by decide, by decide⟩

/-- C10 amended: the octal `%a` stat output is parsed as a BASE-10 integer and
used directly as the file-mode bits — for a digit string `d` within the 64-bit
range the applied mode is `FileMode(atoi10(d)) | 0o700` (so `644` yields
`FileMode(644)|0o700`, not `0o644|0o700`); when parsing fails with a SYNTAX
error (empty or non-digit input) the entry is 0 and the applied mode exactly
0o700; a range overflow instead records the clamped 64-bit bound. -/
theorem c10_amended_mode_pipeline (out : String) :
    ((stripPerms out).data ≠ [] → (∀ c ∈ (stripPerms out).data, isDigitCh c) →
      atoi10 (stripPerms out) ≤ 2 ^ 63 - 1 →
      permEntry out = atoi10 (stripPerms out) ∧
      appliedMode (permEntry out) = fileModeOf (atoi10 (stripPerms out)) ||| 0o700) ∧
    (((stripPerms out).data = [] ∨ ∃ c ∈ (stripPerms out).data, ¬ isDigitCh c) →
      (stripPerms out).data.head? ≠ some '+' → (stripPerms out).data.head? ≠ some '-' →
      permEntry out = 0 ∧ appliedMode (permEntry out) = 0o700) := by
  have hnosign : (stripPerms out).data.head? ≠ some '+' →
      (stripPerms out).data.head? ≠ some '-' →
      dropSign (stripPerms out).data = (false, (stripPerms out).data) := by
    intro hplus hminus
    cases hd : (stripPerms out).data with
    | nil => rfl
    | cons c rest =>
      rw [hd] at hplus hminus
      simp only [List.head?, ne_eq, Option.some.injEq] at hplus hminus
      simp [dropSign, hplus, hminus]
  constructor
  · intro hne hdig hrange
    have hplus : (stripPerms out).data.head? ≠ some '+' := by
      intro h
      cases hd : (stripPerms out).data with
      | nil => rw [hd] at h; cases h
      | cons c rest =>
        rw [hd] at h
        simp only [List.head?, Option.some.injEq] at h
        have := hdig c (by rw [hd]; exact List.mem_cons_self c rest)
        rw [h] at this
        simp [isDigitCh] at this
    have hminus : (stripPerms out).data.head? ≠ some '-' := by
      intro h
      cases hd : (stripPerms out).data with
      | nil => rw [hd] at h; cases h
      | cons c rest =>
        rw [hd] at h
        simp only [List.head?, Option.some.injEq] at h
        have := hdig c (by rw [hd]; exact List.mem_cons_self c rest)
        rw [h] at this
        simp [isDigitCh] at this
    have hval : goAtoi (stripPerms out) = (atoi10 (stripPerms out), true) := by
      unfold goAtoi
      rw [hnosign hplus hminus]
      simp only
      rw [if_neg]
      · have hnonneg : 0 ≤ digitsVal (stripPerms out).data := by
          have key : ∀ (l : List Char), (∀ c ∈ l, isDigitCh c) → ∀ (a : Int), 0 ≤ a →
              0 ≤ l.foldl (fun a c => a * 10 + ((c.toNat : Int) - 48)) a := by
            intro l
            induction l with
            | nil => intro _ a ha; simpa using ha
            | cons c cs ihl =>
              intro hd a ha
              simp only [List.foldl_cons]
              apply ihl (fun x hx => hd x (List.mem_cons_of_mem c hx))
              have hc : 48 ≤ (c.toNat : Int) := by
                have := hd c (List.mem_cons_self c cs)
                simp only [isDigitCh, decide_eq_true_eq] at this
                exact_mod_cast this.1
              nlinarith
          exact key _ hdig 0 (le_refl 0)
        have h1 : ¬ digitsVal (stripPerms out).data > 2 ^ 63 - 1 := by
          unfold atoi10 at hrange; omega
        have h2 : ¬ digitsVal (stripPerms out).data < -(2 ^ 63) := by omega
        simp only [Bool.false_eq_true, if_false, if_neg h1, if_neg h2]
        rfl
      · intro hcon
        rcases hcon with h | h
        · exact hne h
        · obtain ⟨c, hc, hcd⟩ := List.any_eq_true.mp h
          simp only [decide_eq_true_eq] at hcd
          exact hcd (hdig c hc)
    refine ⟨by unfold permEntry; rw [hval], by unfold permEntry appliedMode; rw [hval]⟩
  · intro hbad hplus hminus
    have hval : goAtoi (stripPerms out) = (0, false) := by
      unfold goAtoi
      rw [hnosign hplus hminus]
      simp only
      rw [if_pos]
      rcases hbad with h | ⟨c, hc, hcd⟩
      · exact Or.inl h
      · exact Or.inr (List.any_eq_true.mpr ⟨c, hc, by simpa using hcd⟩)
    refine ⟨by unfold permEntry; rw [hval], by unfold permEntry appliedMode; rw [hval]; rfl⟩

/-- C10 amended witness: stat output `'644'` applies mode
`FileMode(644)|0o700 = 964`, and the non-numeric output `abc` applies exactly
0o700. -/
theorem c10_amended_mode_pipeline_witness :
    appliedMode (permEntry "'644'\n") = fileModeOf (atoi10 (stripPerms "'644'\n")) ||| 0o700 ∧
    appliedMode (permEntry "abc") = 0o700 :=
  ⟨((c10_amended_mode_pipeline "'644'\n").1 (by decide) (by decide) (by decide)).2,
   ((c10_amended_mode_pipeline "abc").2 (by decide) (by decide) (by decide)).2⟩

/-- C8 counterexample: a parsed `COPY --from=0 /a /b` instruction (not
rewritten, not `cmd`) is NOT serialized verbatim: `dumpDockerfile` emits the
lower-cased keyword with the flag slice rendered by `fmt.Sprintf(" %q", ...)`
— `copy ["--from=0"] /a /b` — which differs from the original raw text, so
the claim is false at this input. -/
theorem c8_counterexample :
    dumpDockerfile (.mk "" [] "" none
        [.mk "copy" ["--from=0"] "COPY --from=0 /a /b"
          (some (.mk "/a" [] "" (some (.mk "/b" [] "" none [])) [])) []]) =
      "copy [\"--from=0\"] /a /b" ∧
    verbatimDump (.mk "" [] "" none
        [.mk "copy" ["--from=0"] "COPY --from=0 /a /b"
          (some (.mk "/a" [] "" (some (.mk "/b" [] "" none [])) [])) []]) =
      "COPY --from=0 /a /b" ∧
    dumpDockerfile (.mk "" [] "" none
        [.mk "copy" ["--from=0"] "COPY --from=0 /a /b"
          (some (.mk "/a" [] "" (some (.mk "/b" [] "" none [])) [])) []]) ≠
    verbatimDump (.mk "" [] "" none
        [.mk "copy" ["--from=0"] "COPY --from=0 /a /b"
          (some (.mk "/a" [] "" (some (.mk "/b" [] "" none [])) [])) []]) := by
  refine ⟨by decide, by decide, by decide⟩

/-- Strings append associatively (lifted from list append). -/
theorem strAppendAssoc (a b c : String) : a ++ b ++ c = a ++ (b ++ c) := by
  obtain ⟨la⟩ := a
  obtain ⟨lb⟩ := b
  obtain ⟨lc⟩ := c
  show String.mk (la ++ lb ++ lc) = String.mk (la ++ (lb ++ lc))
  rw [List.append_assoc]

/-- On a flat argument chain, the `Next` loop of `dumpDockerfile` appends each
token prefixed by one space. -/
theorem dumpNexts_flat (o : Option Node) (h : FlatChain o) :
    ∀ s, dumpNexts o s = s ++ strJoin ((chainVals o).map (fun a => " " ++ a)) := by
  induction h with
  | nil =>
    intro s
    rw [dumpNexts]
    simp only [chainVals, List.map_nil, strJoin]
    exact (String.append_empty s).symm
  | cons v fl og nx hnx ih =>
    intro s
    rw [dumpNexts]
    simp only [List.length_nil, gt_iff_lt, lt_self_iff_false, if_false]
    rw [ih (s ++ " " ++ v)]
    simp only [chainVals, List.map_cons, strJoin]
    rw [strAppendAssoc, strAppendAssoc, strAppendAssoc]

/-- A flat instruction line is serialized as its re-synthesized form. -/
theorem dumpFlat (v : String) (fl : List String) (og : String) (nx : Option Node)
    (hnx : FlatChain nx) :
    dumpDockerfile (.mk v fl og nx []) = resynthLine (.mk v fl og nx []) := by
  rw [dumpDockerfile]
  rw [dumpChildren]
  rw [dumpNexts_flat nx hnx]
  unfold resynthLine
  simp [Node.Flags, Node.Value, Node.Next]

/-- On flat instruction lines, the children loop of `dumpDockerfile` appends
re-synthesized lines (or the original text for `cmd`), each followed by a
newline. -/
theorem dumpChildren_flat (l : List Node) :
    (∀ c ∈ l, FlatLine c) → ∀ s, dumpChildren l s =
      s ++ strJoin (l.map
        (fun c => (if c.Value = "cmd" then c.Original else resynthLine c) ++ "\n")) := by
  induction l with
  | nil =>
    intro _ s
    rw [dumpChildren]
    simp only [List.map_nil, strJoin]
    exact (String.append_empty s).symm
  | cons n rest ih =>
    intro hflat s
    have hn := hflat n (List.mem_cons_self n rest)
    have hrest := ih (fun c hc => hflat c (List.mem_cons_of_mem n hc))
    obtain ⟨nv, nfl, nog, nnx, nch⟩ := n
    have hch : nch = [] := hn.1
    subst hch
    rw [dumpChildren]
    by_cases hv : Node.Value (.mk nv nfl nog nnx []) = "cmd"
    · rw [if_pos hv, hrest]
      simp only [List.map_cons, strJoin]
      rw [if_pos hv]
      simp only [Node.Original]
      rw [strAppendAssoc, strAppendAssoc, strAppendAssoc]
    · rw [if_neg hv, hrest]
      simp only [List.map_cons, strJoin]
      rw [if_neg hv]
      rw [dumpFlat nv nfl nog nnx hn.2]
      rw [strAppendAssoc, strAppendAssoc, strAppendAssoc]

/-- C8 amended: non-rewritten instructions other than `cmd` are NOT emitted
verbatim; each ordinary instruction line is re-synthesized from the parsed
tree — the (lower-cased) keyword, then the flag slice rendered by Go's
`%q` list formatting (not the raw flag text), then the argument tokens joined
by single spaces — while a `cmd` instruction alone passes through its
original literal text. -/
theorem c8_amended_resynthesis (og : String) (children : List Node)
    (hflat : ∀ c ∈ children, FlatLine c) :
    dumpDockerfile (.mk "" [] og none children) =
      goTrimSpace (strJoin (children.map
        (fun c => (if c.Value = "cmd" then c.Original else resynthLine c) ++ "\n"))) := by
  rw [dumpDockerfile]
  rw [dumpChildren_flat children hflat]
  rw [dumpNexts]
  norm_num

/-- C8 amended witness: a two-instruction file (a flagged `copy` plus a `cmd`)
serializes to the re-synthesized copy line and the verbatim cmd line. -/
theorem c8_amended_resynthesis_witness :
    dumpDockerfile (.mk "" [] "orig" none
      [.mk "copy" ["--from=0"] "COPY --from=0 /a /b"
          (some (.mk "/a" [] "" (some (.mk "/b" [] "" none [])) [])) [],
       .mk "cmd" [] "CMD [\"sh\", \"-c\"]" (some (.mk "sh -c" [] "" none [])) []]) =
    goTrimSpace (strJoin ([Node.mk "copy" ["--from=0"] "COPY --from=0 /a /b"
          (some (.mk "/a" [] "" (some (.mk "/b" [] "" none [])) [])) [],
       .mk "cmd" [] "CMD [\"sh\", \"-c\"]" (some (.mk "sh -c" [] "" none [])) []].map
        (fun c => (if c.Value = "cmd" then c.Original else resynthLine c) ++ "\n"))) := by
  apply c8_amended_resynthesis
  intro c hc
  simp only [List.mem_cons, List.mem_singleton, List.not_mem_nil, or_false] at hc
  rcases hc with rfl | rfl
  · exact ⟨rfl, .cons "/a" [] "" _ (.cons "/b" [] "" none .nil)⟩
  · exact ⟨rfl, .cons "sh -c" [] "" none .nil⟩

/-- C2: the claim that the container is always force-removed absent an
earlier fatal error is violated by the code: with every daemon call
succeeding and the step's ad hoc command exiting with code 1, `BuildStep`
reaches line 493's `return err` with `err == nil` — it returns SUCCESS, a
container was created, and no container removal ever happens.  This
contradicts the code's own comment "remove the created container" (line 505)
and the spec's ContainerRemoved transition; the `return err` (returning nil)
is the slip. -/
theorem c2_container_leaked_on_nonzero_exit :
    (runBuildStep (fun _ => ⟨false, "c1", 1, []⟩) false [] "u" "w"
        ⟨"s", "Dockerfile", "boom", [], []⟩ (.mk "" [] "" none [])).1 = .ok () ∧
    (Ev.createdContainer "c1") ∈ (runBuildStep (fun _ => ⟨false, "c1", 1, []⟩) false [] "u" "w"
        ⟨"s", "Dockerfile", "boom", [], []⟩ (.mk "" [] "" none [])).2.trace ∧
    ((runBuildStep (fun _ => ⟨false, "c1", 1, []⟩) false [] "u" "w"
        ⟨"s", "Dockerfile", "boom", [], []⟩ (.mk "" [] "" none [])).2.trace.filter
      Ev.isRemoveContainer) = [] := by
  refine ⟨by decide, by decide, by decide⟩

/-- C4: the claim that the generated file is deleted whenever the step
returns success is violated by the code: with every daemon call succeeding
and the ad hoc command exiting with code 2, `BuildStep` returns SUCCESS via
line 493's `return err` (`err == nil`), yet the generated file
`w/Dockerfile.generated` — written earlier in the same run — is never
removed, contradicting the code's own comment "clean up the parsed docker
file. It will remain there if there was a problem" (line 519). -/
theorem c4_generated_left_on_success :
    (runBuildStep (fun _ => ⟨false, "c9", 2, []⟩) false [] "v" "w"
        ⟨"t", "Dockerfile", "run-me", [], []⟩ (.mk "" [] "" none [])).1 = .ok () ∧
    (Ev.wroteGenerated "w/Dockerfile.generated") ∈
      (runBuildStep (fun _ => ⟨false, "c9", 2, []⟩) false [] "v" "w"
        ⟨"t", "Dockerfile", "run-me", [], []⟩ (.mk "" [] "" none [])).2.trace ∧
    ((runBuildStep (fun _ => ⟨false, "c9", 2, []⟩) false [] "v" "w"
        ⟨"t", "Dockerfile", "run-me", [], []⟩ (.mk "" [] "" none [])).2.trace.filter
      Ev.isRemoveGenerated) = [] := by
  refine ⟨by decide, by decide, by decide⟩


theorem bindOk {α β : Type} (x : M α) (f : α → M β) (env : Env) (s s' : BS) (a : α)
    (h : x env s = (.ok a, s')) : (x >>= f) env s = f a env s' := by
  show M.bind x f env s = _
  unfold M.bind
  rw [h]

theorem cleanupCmdsLoop_ok (env : Env) (hok : ∀ k, (env k).isErr = false) (cid : String) :
    ∀ (cmds : List String) (s : BS), ∃ s', cleanupCmdsLoop cid cmds env s = (.ok (), s') := by
  intro cmds
  induction cmds with
  | nil => intro s; exact ⟨s, rfl⟩
  | cons c rest ih =>
    intro s
    unfold cleanupCmdsLoop
    simp only [Bind.bind, M.bind, next, emit, failM, Pure.pure, M.pure, hok,
      Bool.false_eq_true, if_false]
    exact ih _

theorem cleanupPhase_ok (env : Env) (hok : ∀ k, (env k).isErr = false) (cid : String)
    (cmds : List String) (s : BS) : ∃ s', cleanupPhase cid cmds env s = (.ok (), s') := by
  unfold cleanupPhase
  simp only [Bind.bind, M.bind, next, emit, failM, Pure.pure, M.pure, hok,
    Bool.false_eq_true, if_false]
  obtain ⟨s', hs'⟩ := cleanupCmdsLoop_ok env hok cid cmds
    ⟨s.idx + 1, Ev.startedContainer cid :: s.trace, s.files⟩
  rw [hs']
  simp only [hok, Bool.false_eq_true, if_false]
  exact ⟨_, rfl⟩

theorem statLoop_ok (env : Env) (hok : ∀ k, (env k).isErr = false) (cid : String) :
    ∀ (arts : List Artifact) (acc : List (String × Int)) (s : BS),
      ∃ m s', statLoop cid acc arts env s = (.ok m, s') := by
  intro arts
  induction arts with
  | nil => intro acc s; exact ⟨acc, s, rfl⟩
  | cons a rest ih =>
    intro acc s
    unfold statLoop
    simp only [Bind.bind, M.bind, next, emit, failM, Pure.pure, M.pure, hok,
      Bool.false_eq_true, if_false]
    exact ih _ _

theorem hasPath_createFile (p : String) (fs : Fs) : hasPath (createFile p fs) p = true := by
  unfold createFile
  by_cases h : hasPath fs p = true
  · rw [if_pos h]
    unfold hasPath at h ⊢
    obtain ⟨e, he, hep⟩ := List.any_eq_true.mp h
    refine List.any_eq_true.mpr ⟨{ e with content := "" }, ?_, hep⟩
    apply List.mem_map.mpr
    refine ⟨e, he, ?_⟩
    simp only [decide_eq_true_eq] at hep
    rw [if_pos hep]
  · rw [if_neg h]
    unfold hasPath
    refine List.any_eq_true.mpr ⟨⟨p, "", 0o666⟩, List.mem_append_right _ (by simp), by simp⟩

theorem hasPath_writeFileFs (p q c : String) : ∀ (fs : Fs),
    hasPath (writeFileFs q c fs) p = hasPath fs p := by
  intro fs
  induction fs with
  | nil => rfl
  | cons e rest ih =>
    unfold hasPath writeFileFs at ih ⊢
    simp only [List.map_cons, List.any_cons]
    have hp : (if e.path = q then { e with content := c } else e).path = e.path := by
      by_cases h : e.path = q
      · rw [if_pos h]
      · rw [if_neg h]
    rw [hp, ih]

theorem extractEntries_ok (env : Env) (hok : ∀ k, (env k).isErr = false) (d : String) :
    ∀ (es : List TarEntry) (s : BS), (∀ e ∈ es, e.typeflag = '0') →
      ∃ s', extractEntries d es env s = (.ok (), s') ∧
        ((es ≠ [] ∨ hasPath s.files d = true) → hasPath s'.files d = true) := by
  intro es
  induction es with
  | nil =>
    intro s _
    refine ⟨s, rfl, ?_⟩
    rintro (h | h)
    · cases h rfl
    · exact h
  | cons e rest ih =>
    intro s hreg
    have he : e.typeflag = '0' := hreg e (List.mem_cons_self e rest)
    unfold extractEntries
    rw [if_pos he]
    simp only [Bind.bind, M.bind, next, emit, failM, Pure.pure, M.pure, modifyFiles, hok,
      Bool.false_eq_true, if_false]
    obtain ⟨s', hs', hpath⟩ := ih
      ⟨s.idx + 1 + 1, Ev.createdFile d :: s.trace, writeFileFs d e.content (createFile d s.files)⟩
      (fun x hx => hreg x (List.mem_cons_of_mem e hx))
    rw [hs']
    refine ⟨s', rfl, fun _ => ?_⟩
    by_cases hr : rest = []
    · subst hr
      simp only [extractEntries, Pure.pure, M.pure, Prod.mk.injEq, true_and] at hs'
      subst hs'
      rw [hasPath_writeFileFs, hasPath_createFile]
    · exact hpath (Or.inl hr)

theorem copyToHost_ok (env : Env) (hok : ∀ k, (env k).isErr = false)
    (harch : ∀ k, (env k).archive ≠ [] ∧ ∀ e ∈ (env k).archive, e.typeflag = '0')
    (workdir : String) (a : Artifact) (perms : List (String × Int)) (s : BS) :
    ∃ s', copyToHost workdir a perms env s = (.ok (), s') := by
  unfold copyToHost
  simp only [Bind.bind, M.bind, next, emit, failM, Pure.pure, M.pure, getFiles, modifyFiles,
    hok, Bool.false_eq_true, if_false]
  obtain ⟨s2, hs2, hpath⟩ := extractEntries_ok env hok
    (pathJoin (pathJoin workdir a.Dest) (filepathBase a.Source))
    (env (s.idx + 1)).archive
    ⟨s.idx + 1 + 1, Ev.downloaded a.Source :: Ev.madeDirAll (pathJoin workdir a.Dest) :: s.trace,
      s.files⟩
    (harch (s.idx + 1)).2
  rw [hs2]
  have hp : hasPath s2.files (pathJoin (pathJoin workdir a.Dest) (filepathBase a.Source)) = true :=
    hpath (Or.inl (harch (s.idx + 1)).1)
  simp only [false_or, hp, not_true_eq_false, if_false, Bind.bind, M.bind, modifyFiles, emit]
  exact ⟨_, rfl⟩

theorem copyLoop_ok (env : Env) (hok : ∀ k, (env k).isErr = false)
    (harch : ∀ k, (env k).archive ≠ [] ∧ ∀ e ∈ (env k).archive, e.typeflag = '0')
    (workdir : String) (perms : List (String × Int)) :
    ∀ (arts : List Artifact) (s : BS), ∃ s', copyLoop workdir perms arts env s = (.ok (), s') := by
  intro arts
  induction arts with
  | nil => intro s; exact ⟨s, rfl⟩
  | cons a rest ih =>
    intro s
    unfold copyLoop
    obtain ⟨s2, hs2⟩ := copyToHost_ok env hok harch workdir a perms s
    rw [bindOk _ _ env s s2 () hs2]
    exact ih s2

theorem artifactsPhase_ok (env : Env) (hok : ∀ k, (env k).isErr = false)
    (harch : ∀ k, (env k).archive ≠ [] ∧ ∀ e ∈ (env k).archive, e.typeflag = '0')
    (workdir cid : String) (arts : List Artifact) (s : BS) :
    ∃ s', artifactsPhase workdir cid arts env s = (.ok (), s') := by
  unfold artifactsPhase
  simp only [Bind.bind, M.bind, next, emit, failM, Pure.pure, M.pure, hok,
    Bool.false_eq_true, if_false]
  obtain ⟨m, s2, hs2⟩ := statLoop_ok env hok cid arts []
    ⟨s.idx + 1, Ev.startedContainer cid :: s.trace, s.files⟩
  rw [hs2]
  simp only [hok, Bool.false_eq_true, if_false]
  obtain ⟨s3, hs3⟩ := copyLoop_ok env hok harch workdir m arts
    ⟨s2.idx + 1, Ev.stoppedContainer cid :: s2.trace, s2.files⟩
  rw [hs3]
  exact ⟨s3, rfl⟩

theorem commandPhase_ok (env : Env) (hok : ∀ k, (env k).isErr = false) (cid : String) (s : BS) :
    ∃ b s', commandPhase cid env s = (.ok b, s') := by
  unfold commandPhase
  simp only [Bind.bind, M.bind, next, emit, failM, Pure.pure, M.pure, hok,
    Bool.false_eq_true, if_false]
  by_cases h4 : (env (s.idx + 1 + 1 + 1)).num ≠ 0
  · rw [if_pos h4]
    exact ⟨true, _, rfl⟩
  · rw [if_neg h4]
    simp only [Bind.bind, M.bind, next, emit, failM, Pure.pure, M.pure, hok,
      Bool.false_eq_true, if_false]
    exact ⟨false, _, rfl⟩

theorem maybeCleanup_ok (env : Env) (hok : ∀ k, (env k).isErr = false)
    (ns : Bool) (cid : String) (cmds : List String) (s : BS) :
    ∃ s', maybeCleanup ns cid cmds env s = (.ok (), s') := by
  unfold maybeCleanup
  by_cases h : ¬ ns = true ∧ cmds.length > 0
  · rw [if_pos h]; exact cleanupPhase_ok env hok cid cmds s
  · rw [if_neg h]; exact ⟨s, rfl⟩

theorem maybeArtifacts_ok (env : Env) (hok : ∀ k, (env k).isErr = false)
    (harch : ∀ k, (env k).archive ≠ [] ∧ ∀ e ∈ (env k).archive, e.typeflag = '0')
    (workdir cid : String) (arts : List Artifact) (s : BS) :
    ∃ s', maybeArtifacts workdir cid arts env s = (.ok (), s') := by
  unfold maybeArtifacts
  by_cases h : arts.length > 0
  · rw [if_pos h]; exact artifactsPhase_ok env hok harch workdir cid arts s
  · rw [if_neg h]; exact ⟨s, rfl⟩

theorem maybeCommand_ok (env : Env) (hok : ∀ k, (env k).isErr = false)
    (cid cmd : String) (s : BS) :
    ∃ b s', maybeCommand cid cmd env s = (.ok b, s') := by
  unfold maybeCommand
  by_cases h : cmd ≠ ""
  · rw [if_pos h]; exact commandPhase_ok env hok cid s
  · rw [if_neg h]; exact ⟨false, s, rfl⟩

theorem containerSection_ok (env : Env) (hok : ∀ k, (env k).isErr = false)
    (harch : ∀ k, (env k).archive ≠ [] ∧ ∀ e ∈ (env k).archive, e.typeflag = '0')
    (ns : Bool) (workdir : String) (step : Step) (s : BS) :
    ∃ b s', containerSection ns workdir step env s = (.ok b, s') := by
  unfold containerSection
  simp only [Bind.bind, M.bind, next, emit, failM, Pure.pure, M.pure, hok,
    Bool.false_eq_true, if_false]
  obtain ⟨s2, hs2⟩ := maybeCleanup_ok env hok ns (env s.idx).str step.Cleanup
    ⟨s.idx + 1, Ev.createdContainer (env s.idx).str :: s.trace, s.files⟩
  obtain ⟨s3, hs3⟩ := maybeArtifacts_ok env hok harch workdir (env s.idx).str step.Artifacts s2
  obtain ⟨b, s4, hs4⟩ := maybeCommand_ok env hok (env s.idx).str step.Command s3
  simp only [hs2, hs3, hs4]
  cases b with
  | true => exact ⟨true, s4, rfl⟩
  | false =>
    simp only [Bool.false_eq_true, if_false, Bind.bind, M.bind, next, emit, failM,
      Pure.pure, M.pure, hok]
    exact ⟨false, _, rfl⟩

theorem rewritePhase_ok (env : Env) (hok : ∀ k, (env k).isErr = false)
    (steps : List Step) (uid workdir : String) (step : Step) (tree : Node)
    (hrw : (replaceFromFieldCore steps uid tree).isOk = true) (s : BS) :
    ∃ s', rewritePhase steps uid workdir step tree env s = (.ok (), s') := by
  unfold rewritePhase
  obtain ⟨t, ht⟩ : ∃ t, replaceFromFieldCore steps uid tree = .ok t := by
    cases h : replaceFromFieldCore steps uid tree with
    | ok t => exact ⟨t, rfl⟩
    | error e => rw [h] at hrw; simp [Except.isOk, Except.toBool] at hrw
  rw [ht]
  simp only [Bind.bind, M.bind, next, emit, failM, Pure.pure, M.pure, hok,
    Bool.false_eq_true, if_false]
  exact ⟨_, rfl⟩

theorem maybeContainer_ok (env : Env) (hok : ∀ k, (env k).isErr = false)
    (harch : ∀ k, (env k).archive ≠ [] ∧ ∀ e ∈ (env k).archive, e.typeflag = '0')
    (ns : Bool) (workdir : String) (step : Step) (s : BS) :
    ∃ b s', maybeContainer ns workdir step env s = (.ok b, s') := by
  unfold maybeContainer
  by_cases h : step.Artifacts.length > 0 ∨ step.Cleanup.length > 0 ∨ step.Command ≠ ""
  · rw [if_pos h]; exact containerSection_ok env hok harch ns workdir step s
  · rw [if_neg h]; exact ⟨false, s, rfl⟩

/-- C5: with every daemon call succeeding, well-formed artifact downloads and
a successful build-file rewrite, `BuildStep` returns success whatever exit
code the ad hoc command's exec reports — in particular a non-zero exit code
is logged but never surfaces as a failure value (line 493 returns the nil
`err` from line 487). -/
theorem c5_nonzero_exit_not_fatal (env : Env) (ns : Bool) (steps : List Step)
    (uid workdir : String) (step : Step) (tree : Node)
    (hok : ∀ k, (env k).isErr = false)
    (harch : ∀ k, (env k).archive ≠ [] ∧ ∀ e ∈ (env k).archive, e.typeflag = '0')
    (hrw : (replaceFromFieldCore steps uid tree).isOk = true)
    (hcmd : step.Command ≠ "") :
    (runBuildStep env ns steps uid workdir step tree).1 = .ok () := by
  unfold runBuildStep BuildStep
  obtain ⟨s1, hs1⟩ := rewritePhase_ok env hok steps uid workdir step tree hrw ⟨0, [], []⟩
  rw [bindOk _ _ env _ s1 () hs1]
  simp only [Bind.bind, M.bind, next, emit, failM, Pure.pure, M.pure, hok,
    Bool.false_eq_true, if_false]
  obtain ⟨b, s2, hs2⟩ := maybeContainer_ok env hok harch ns workdir step
    ⟨s1.idx + 1, Ev.builtImage (uniqueStepName uid step) :: s1.trace, s1.files⟩
  simp only [hs2]
  cases b with
  | true => rfl
  | false =>
    simp only [Bool.false_eq_true, if_false, Bind.bind, M.bind, next, emit, failM,
      Pure.pure, M.pure, hok]


/-- C5 witness: a concrete step with an ad hoc command whose exec exits with
code 2, every daemon call succeeding: `BuildStep` returns success, not a
failure value. -/
theorem c5_nonzero_exit_not_fatal_witness :
    (runBuildStep (fun _ => ⟨false, "cw", 2, [⟨'0', "data"⟩]⟩) false [] "u" "w"
        ⟨"s", "Dockerfile", "go", [⟨"/x", "out"⟩], []⟩ (.mk "" [] "" none [])).1 = .ok () :=
  c5_nonzero_exit_not_fatal (fun _ => ⟨false, "cw", 2, [⟨'0', "data"⟩]⟩) false [] "u" "w"
    ⟨"s", "Dockerfile", "go", [⟨"/x", "out"⟩], []⟩ (.mk "" [] "" none [])
    (fun _ => rfl)
    (fun _ => ⟨(by decide : ([⟨'0', "data"⟩] : List TarEntry) ≠ []),
      (by decide : ∀ e ∈ ([⟨'0', "data"⟩] : List TarEntry), e.typeflag = '0')⟩)
    (by decide) (by decide)


theorem extractEntries_precise (env : Env) (hok : ∀ k, (env k).isErr = false) (d : String) :
    ∀ (es : List TarEntry), (∀ e ∈ es, e.typeflag = '0') →
      ∀ (i : Nat) (tr : List Ev) (x : String) (m : Nat),
      extractEntries d es env ⟨i, tr, [⟨d, x, m⟩]⟩ =
        (.ok (), ⟨i + 2 * es.length,
          List.replicate es.length (Ev.createdFile d) ++ tr,
          [⟨d, es.foldl (fun _ e => e.content) x, m⟩]⟩) := by
  intro es
  induction es with
  | nil => intro _ i tr x m; rfl
  | cons e rest ih =>
    intro hreg i tr x m
    have he : e.typeflag = '0' := hreg e (List.mem_cons_self e rest)
    unfold extractEntries
    rw [if_pos he]
    simp only [Bind.bind, M.bind, next, emit, failM, Pure.pure, M.pure, modifyFiles, hok,
      Bool.false_eq_true, if_false]
    have hcf : createFile d [⟨d, x, m⟩] = [⟨d, "", m⟩] := by
      unfold createFile hasPath
      simp
    have hwf : writeFileFs d e.content [⟨d, "", m⟩] = [⟨d, e.content, m⟩] := by
      unfold writeFileFs
      simp
    rw [hcf, hwf]
    rw [ih (fun z hz => hreg z (List.mem_cons_of_mem e hz)) (i + 1 + 1) (Ev.createdFile d :: tr)
      e.content m]
    simp only [List.length_cons]
    congr 1
    congr 1
    · omega
    · rw [List.replicate_succ']
      rw [List.append_assoc]
      rfl

theorem foldl_lastContent : ∀ (es : List TarEntry) (x : String), es ≠ [] →
    es.foldl (fun _ e => e.content) x = (es.getLastD ⟨'0', ""⟩).content := by
  intro es
  induction es with
  | nil => intro x h; cases h rfl
  | cons e rest ih =>
    intro x _
    by_cases hr : rest = []
    · subst hr; rfl
    · simp only [List.foldl_cons]
      rw [ih e.content hr]
      obtain ⟨r, rs, rfl⟩ : ∃ r rs, rest = r :: rs := by
        cases rest with
        | nil => cases hr rfl
        | cons r rs => exact ⟨r, rs, rfl⟩
      rfl



theorem or_700_includes_owner_we (x : Nat) : (x ||| 0o700) &&& 0o300 = 0o300 := by
  apply Nat.eq_of_testBit_eq
  intro i
  simp only [Nat.testBit_land, Nat.testBit_lor]
  have h448 : (0o700 : Nat) = 0o300 ||| 0o400 := by decide
  rw [h448, Nat.testBit_lor]
  cases h : Nat.testBit 0o300 i
  · simp
  · simp [h]

/-- C6: for an artifact whose download succeeds with an archive of only
regular-file entries, extraction writes the host file at
`pathJoin (pathJoin workdir Dest) (filepathBase Source)` — creating the
destination directory first — with the last entry's content, and the applied
file mode `FileMode(perms[Source]) | 0o700` always includes the owner write
and execute bits (0o300), whatever permission value was recorded. -/
theorem c6_artifact_extraction (workdir src dst : String) (perms : List (String × Int))
    (es : List TarEntry) (hne : es ≠ []) (hreg : ∀ e ∈ es, e.typeflag = '0') :
    (copyToHost workdir ⟨src, dst⟩ perms (fun _ => ⟨false, "", 0, es⟩) ⟨0, [], []⟩).1 =
      .ok () ∧
    (Ev.madeDirAll (pathJoin workdir dst)) ∈
      (copyToHost workdir ⟨src, dst⟩ perms (fun _ => ⟨false, "", 0, es⟩) ⟨0, [], []⟩).2.trace ∧
    (copyToHost workdir ⟨src, dst⟩ perms (fun _ => ⟨false, "", 0, es⟩) ⟨0, [], []⟩).2.files =
      [⟨pathJoin (pathJoin workdir dst) (filepathBase src),
        (es.getLastD ⟨'0', ""⟩).content, appliedMode (lookupPerm perms src)⟩] ∧
    appliedMode (lookupPerm perms src) &&& 0o300 = 0o300 := by
  obtain ⟨e, rest, rfl⟩ : ∃ e rest, es = e :: rest := by
    cases es with
    | nil => cases hne rfl
    | cons e rest => exact ⟨e, rest, rfl⟩
  have hok : ∀ k : Nat, ((fun _ : Nat => Resp.mk false "" 0 (e :: rest)) k).isErr = false :=
    fun _ => rfl
  have he : e.typeflag = '0' := hreg e (List.mem_cons_self e rest)
  have hrun : copyToHost workdir ⟨src, dst⟩ perms (fun _ => ⟨false, "", 0, e :: rest⟩)
      ⟨0, [], []⟩ =
      (.ok (), ⟨5 + 2 * rest.length,
        Ev.chmodded (pathJoin (pathJoin workdir dst) (filepathBase src))
            (appliedMode (lookupPerm perms src)) ::
          (List.replicate rest.length
              (Ev.createdFile (pathJoin (pathJoin workdir dst) (filepathBase src))) ++
            [Ev.createdFile (pathJoin (pathJoin workdir dst) (filepathBase src)),
             Ev.downloaded src, Ev.madeDirAll (pathJoin workdir dst)]),
        [⟨pathJoin (pathJoin workdir dst) (filepathBase src),
          rest.foldl (fun _ t => t.content) e.content,
          appliedMode (lookupPerm perms src)⟩]⟩) := by
    unfold copyToHost
    simp only [Bind.bind, M.bind, next, emit, failM, Pure.pure, M.pure, getFiles, modifyFiles,
      Bool.false_eq_true, if_false]
    unfold extractEntries
    rw [if_pos he]
    simp only [Bind.bind, M.bind, next, emit, failM, Pure.pure, M.pure, modifyFiles,
      Bool.false_eq_true, if_false]
    have hcf : createFile (pathJoin (pathJoin workdir dst) (filepathBase src)) [] =
        [⟨pathJoin (pathJoin workdir dst) (filepathBase src), "", 0o666⟩] := rfl
    have hwf : writeFileFs (pathJoin (pathJoin workdir dst) (filepathBase src)) e.content
        [⟨pathJoin (pathJoin workdir dst) (filepathBase src), "", 0o666⟩] =
        [⟨pathJoin (pathJoin workdir dst) (filepathBase src), e.content, 0o666⟩] := by
      unfold writeFileFs
      simp
    rw [hcf, hwf]
    rw [extractEntries_precise (fun _ => ⟨false, "", 0, e :: rest⟩) hok
      (pathJoin (pathJoin workdir dst) (filepathBase src)) rest
      (fun z hz => hreg z (List.mem_cons_of_mem e hz)) (2 + 1 + 1)
      [Ev.createdFile (pathJoin (pathJoin workdir dst) (filepathBase src)),
       Ev.downloaded src, Ev.madeDirAll (pathJoin workdir dst)] e.content 0o666]
    have hhp : hasPath [⟨pathJoin (pathJoin workdir dst) (filepathBase src),
        rest.foldl (fun _ t => t.content) e.content, 0o666⟩]
        (pathJoin (pathJoin workdir dst) (filepathBase src)) = true := by
      unfold hasPath
      simp
    simp only [hhp, not_true_eq_false, false_or, if_false, Bind.bind, M.bind, modifyFiles, emit]
    have hch : chmodFs (pathJoin (pathJoin workdir dst) (filepathBase src))
        (appliedMode (lookupPerm perms src))
        [⟨pathJoin (pathJoin workdir dst) (filepathBase src),
          rest.foldl (fun _ t => t.content) e.content, 0o666⟩] =
        [⟨pathJoin (pathJoin workdir dst) (filepathBase src),
          rest.foldl (fun _ t => t.content) e.content,
          appliedMode (lookupPerm perms src)⟩] := by
      unfold chmodFs
      simp
    rw [hch]
    congr 2
    omega
  refine ⟨by rw [hrun], ?_, ?_, or_700_includes_owner_we _⟩
  · rw [hrun]
    simp
  · rw [hrun]
    have hl := foldl_lastContent (e :: rest) "" hne
    rw [← hl]
    rfl


/-- C6 witness: artifact `/a/b` with recorded permission 644, archive a single
regular entry `hello`: the run succeeds and writes `w/out/b` with content
`hello` and mode `FileMode(644)|0o700 = 964`. -/
theorem c6_artifact_extraction_witness :
    (copyToHost "w" ⟨"/a/b", "out"⟩ [("/a/b", 644)]
        (fun _ => ⟨false, "", 0, [⟨'0', "hello"⟩]⟩) ⟨0, [], []⟩).1 = .ok () ∧
    (copyToHost "w" ⟨"/a/b", "out"⟩ [("/a/b", 644)]
        (fun _ => ⟨false, "", 0, [⟨'0', "hello"⟩]⟩) ⟨0, [], []⟩).2.files =
      [⟨"w/out/b", "hello", 964⟩] := by
  have h := c6_artifact_extraction "w" "/a/b" "out" [("/a/b", 644)] [⟨'0', "hello"⟩]
    (by decide) (by decide)
  exact ⟨h.1, by rw [h.2.2.1]; decide⟩

/-- C7: extracting the same artifact twice (same Source and Dest, second
download yielding possibly different content) succeeds and leaves EXACTLY one
file at the destination path, holding the second run's content — the second
extraction overwrites the first rather than duplicating or failing. -/
theorem c7_extraction_idempotent (workdir src dst c1 c2 : String)
    (perms : List (String × Int)) :
    ((copyToHost workdir ⟨src, dst⟩ perms >>= fun _ => copyToHost workdir ⟨src, dst⟩ perms)
        (fun k => ⟨false, "", 0, if k = 6 then [⟨'0', c2⟩] else [⟨'0', c1⟩]⟩)
        ⟨0, [], []⟩).1 = .ok () ∧
    ((copyToHost workdir ⟨src, dst⟩ perms >>= fun _ => copyToHost workdir ⟨src, dst⟩ perms)
        (fun k => ⟨false, "", 0, if k = 6 then [⟨'0', c2⟩] else [⟨'0', c1⟩]⟩)
        ⟨0, [], []⟩).2.files =
      [⟨pathJoin (pathJoin workdir dst) (filepathBase src), c2,
        appliedMode (lookupPerm perms src)⟩] ∧
    (((copyToHost workdir ⟨src, dst⟩ perms >>= fun _ => copyToHost workdir ⟨src, dst⟩ perms)
        (fun k => ⟨false, "", 0, if k = 6 then [⟨'0', c2⟩] else [⟨'0', c1⟩]⟩)
        ⟨0, [], []⟩).2.files.countP
      (fun e => decide (e.path = pathJoin (pathJoin workdir dst) (filepathBase src)))) = 1 := by
  refine ⟨?_, ?_, ?_⟩ <;>
    simp only [copyToHost, extractEntries, Bind.bind, M.bind, next, emit, failM, Pure.pure,
      M.pure, getFiles, modifyFiles, createFile, writeFileFs, chmodFs, hasPath,
      List.any_nil, List.any_cons, Bool.false_eq_true, if_false, if_true, false_or,
      not_true_eq_false, decide_eq_true_eq, List.nil_append, List.map_cons, List.map_nil,
      eq_self_iff_true, decide_True, Bool.true_or, Bool.or_false, Bool.false_or,
      Bool.not_true, Bool.not_false, List.countP_cons, List.countP_nil]

end Habitus
